import Mathlib

/-!
Verification of the banana-slides-services PDF-to-PPTX conversion utilities.

The Python modules `utils/self_hosted_mineru.py`, `utils/template_style_extractor.py`
and `pdf_to_pptx.py` are shallowly embedded below.  Python strings are Lean
`String`s (finite sequences of characters); byte strings are `List Nat`;
filesystem directories are association lists from file names to contents;
code that can raise returns `Except`/`Option`.  `str.strip()` is modelled over
the ASCII whitespace characters, and `Path.resolve()` is modelled as lexical
normalisation (no symbolic links).
-/

namespace Banana

/-! ## Python string primitives -/

/-- ASCII whitespace, as stripped by Python's `str.strip()`. -/
def pyWs (c : Char) : Bool :=
  c == ' ' || c == '\t' || c == '\n' || c == '\r' || c == '\x0b' || c == '\x0c'

/-- Remove leading and trailing whitespace characters (`str.strip()`). -/
def stripChars (l : List Char) : List Char :=
  ((l.dropWhile pyWs).reverse.dropWhile pyWs).reverse

def pyStrip (s : String) : String :=
  String.mk (stripChars s.data)

/-- `str.rstrip("/")`: remove trailing slash characters. -/
def rstripSlashChars (l : List Char) : List Char :=
  (l.reverse.dropWhile (· == '/')).reverse

def pyRstripSlash (s : String) : String :=
  String.mk (rstripSlashChars s.data)

/-- `str.endswith(suf)`. -/
def pyEndsWith (s suf : String) : Bool :=
  suf.data.isSuffixOf s.data

/-- Python truthiness of an optional string (`None` and `""` are falsy). -/
def pyTruthy (s : Option String) : Bool :=
  match s with
  | none => false
  | some t => t ≠ ""

/-! ## `resolve_self_hosted_endpoint` (utils/self_hosted_mineru.py, lines 27 and 34-47) -/

def DEFAULT_SELF_HOSTED_ENDPOINT : String := "http://ai23.labs.hpecorp.net:8023/file_parse"

/-- The final branch of `resolve_self_hosted_endpoint`: keep a URL already
ending in `/file_parse`, otherwise append it after removing trailing slashes. -/
def resolveUrl (url : String) : String :=
  if pyEndsWith url "/file_parse" then url
  else pyRstripSlash url ++ "/file_parse"

def resolve_self_hosted_endpoint (x : String) : String :=
  if pyStrip x = "" then resolveUrl DEFAULT_SELF_HOSTED_ENDPOINT
  else resolveUrl (pyStrip x)

/-! ## `_parse_color` (utils/template_style_extractor.py, lines 172-198)

`int(s, 16)` is embedded faithfully: surrounding whitespace, an optional
sign, an optional `0x`/`0X` marker (possibly followed by one underscore),
and hexadecimal digits separated by single underscores are accepted. -/

def isHexDigitCh (c : Char) : Bool :=
  ('0' ≤ c && c ≤ '9') || ('a' ≤ c && c ≤ 'f') || ('A' ≤ c && c ≤ 'F')

def hexDigitVal (c : Char) : Nat :=
  if '0' ≤ c && c ≤ '9' then c.toNat - '0'.toNat
  else if 'a' ≤ c && c ≤ 'f' then c.toNat - 'a'.toNat + 10
  else c.toNat - 'A'.toNat + 10

/-- Digits separated by single underscores, continuing a number whose
leading digits have value `acc`. -/
def hexDigitsGo (acc : Nat) : List Char → Option Nat
  | [] => some acc
  | c :: rest =>
      if c = '_' then
        match rest with
        | [] => none
        | c2 :: rest2 =>
            if isHexDigitCh c2 then hexDigitsGo (16 * acc + hexDigitVal c2) rest2 else none
      else if isHexDigitCh c then hexDigitsGo (16 * acc + hexDigitVal c) rest else none

/-- A nonempty run of hexadecimal digits with single underscores between digits. -/
def parseHexDigits : List Char → Option Nat
  | [] => none
  | c :: rest => if isHexDigitCh c then hexDigitsGo (hexDigitVal c) rest else none

/-- After a `0x` marker Python tolerates a single underscore before the digits. -/
def hexAfterMarker (r : List Char) : Option Nat :=
  if r.head? = some '_' then parseHexDigits r.tail else parseHexDigits r

/-- The unsigned part of `int(s, 16)`: an optional `0x`/`0X` marker, then digits. -/
def hexBody (t : List Char) : Option Nat :=
  if t.head? = some '0' ∧ (t.tail.head? = some 'x' ∨ t.tail.head? = some 'X') then
    hexAfterMarker t.tail.tail
  else parseHexDigits t

def signOf (t : List Char) : Int :=
  if t.head? = some '-' then -1 else 1

def unsigned (t : List Char) : List Char :=
  if t.head? = some '-' ∨ t.head? = some '+' then t.tail else t

/-- Python's `int(s, 16)`, returning `none` where Python raises `ValueError`. -/
def pyIntBase16 (l : List Char) : Option Int :=
  (hexBody (unsigned (stripChars l))).map (fun n => signOf (stripChars l) * (n : Int))

/-- `TemplateStyleExtractor._parse_color`. -/
def _parse_color (color_str : Option String) : Option (Int × Int × Int) :=
  match color_str with
  | none => none
  | some s =>
    if s.data = [] then none
    else
      let t := s.data.dropWhile (· == '#')
      if t.length = 6 then
        match pyIntBase16 (t.take 2), pyIntBase16 ((t.drop 2).take 2),
              pyIntBase16 ((t.drop 4).take 2) with
        | some r, some g, some b => some (r, g, b)
        | _, _, _ => none
      else none

/-- The specification's pattern `[0-9A-Fa-f]{6}`, matched against the whole string. -/
def matchesHex6 (s : String) : Bool :=
  s.data.length == 6 && s.data.all isHexDigitCh

/-- The RGB triple obtained by reading the three hexadecimal byte pairs of a
six-character string, written independently of the implementation. -/
def specHexTriple (s : String) : Option (Int × Int × Int) :=
  match s.data with
  | [a, b, c, d, e, f] =>
      some ((16 * hexDigitVal a + hexDigitVal b : Nat),
            (16 * hexDigitVal c + hexDigitVal d : Nat),
            (16 * hexDigitVal e + hexDigitVal f : Nat))
  | _ => none

/-! ## `generate_clean_backgrounds` (pdf_to_pptx.py, lines 135-166) -/

/-- `generate_clean_backgrounds`: `ak`/`sk` are the values of
`VOLCENGINE_ACCESS_KEY`/`VOLCENGINE_SECRET_KEY` (`none` when unset), and
`inpaint` stands for `InpaintingExportHelper.generate_clean_backgrounds_with_inpainting`. -/
def generate_clean_backgrounds (ak sk : Option String) (image_paths : List String)
    (inpaint : List String → List String) : List String :=
  let use_inpainting := pyTruthy ak && pyTruthy sk
  if use_inpainting then inpaint image_paths else image_paths

/-! ## Template style extraction (utils/template_style_extractor.py)

`extract_text_inventory` lives in the external `templates/inventory.py`
module; `extract_styles` only reads, for every slide and shape of its result,
the shape's `placeholder_type` and the `font_name`/`bold`/`color` fields of
its paragraphs.  The inventory is therefore embedded as a list of slides,
each a list of shape records, in iteration order; a failed module
load or a raised parse exception is an `Except.error` argument. -/

structure FontStyle where
  name : String
  fallback_name : String := "Arial"
  bold : Bool := false
  italic : Bool := false
  color_rgb : Option (Int × Int × Int) := none
deriving Repr, DecidableEq

structure StyleConfig where
  title_font : FontStyle := { name := "Arial", bold := true }
  body_font : FontStyle := { name := "Arial", bold := false }
  source_template : Option String := none
deriving Repr, DecidableEq

def get_hpe_default_style : StyleConfig :=
  { title_font :=
      { name := "HPE Graphik Semibold", fallback_name := "Arial",
        bold := true, color_rgb := none },
    body_font :=
      { name := "HPE Graphik", fallback_name := "Arial",
        bold := false, color_rgb := none },
    source_template := some "HPE defaults" }

structure Paragraph where
  font_name : Option String
  bold : Option Bool
  color : Option String
deriving Repr, DecidableEq

structure ShapeData where
  placeholder_type : Option String
  paragraphs : List Paragraph
deriving Repr, DecidableEq

/-- The six locals of the scanning loop in `extract_styles` (lines 90-95). -/
structure ScanState where
  title_font_name : Option String := none
  title_font_bold : Option Bool := none
  title_font_color : Option (Int × Int × Int) := none
  body_font_name : Option String := none
  body_font_bold : Option Bool := none
  body_font_color : Option (Int × Int × Int) := none
deriving Repr, DecidableEq

def isTitleType (t : Option String) : Bool :=
  t == some "TITLE" || t == some "CENTER_TITLE"

def isBodyType (t : Option String) : Bool :=
  t == some "BODY" || t == some "SUBTITLE" || t == some "FOOTER"

/-- One iteration of the placeholder scan (lines 98-128). -/
def scanShape (st : ScanState) (sh : ShapeData) : ScanState :=
  match sh.paragraphs with
  | [] => st
  | first_para :: _ =>
      if pyTruthy first_para.font_name = false then st
      else if isTitleType sh.placeholder_type then
        if pyTruthy st.title_font_name = false then
          { st with
            title_font_name := first_para.font_name,
            title_font_bold := first_para.bold,
            title_font_color := _parse_color first_para.color }
        else st
      else if isBodyType sh.placeholder_type then
        if pyTruthy st.body_font_name = false then
          { st with
            body_font_name := first_para.font_name,
            body_font_bold := first_para.bold,
            body_font_color := _parse_color first_para.color }
        else st
      else st

def scanInventory (inv : List (List ShapeData)) : ScanState :=
  inv.foldl (fun st slide => slide.foldl scanShape st) {}

/-- Building the returned `StyleConfig` (lines 130-163). -/
def buildStyleConfig (template_path : String) (st : ScanState) : StyleConfig :=
  { source_template := some template_path,
    title_font :=
      if pyTruthy st.title_font_name then
        { name := st.title_font_name.getD "",
          bold := st.title_font_bold.getD true,
          color_rgb := st.title_font_color }
      else { name := "HPE Graphik Semibold", bold := true },
    body_font :=
      if pyTruthy st.body_font_name then
        { name := st.body_font_name.getD "",
          bold := st.body_font_bold.getD false,
          color_rgb := st.body_font_color }
      else { name := "HPE Graphik", bold := false } }

/-- `TemplateStyleExtractor.extract_styles`: `template_exists` is whether the
content-slide template file exists, and `inventory` is the outcome of
loading the inventory module and calling `extract_text_inventory`
(`Except.error` when either raises). -/
def extract_styles (template_exists : Bool) (template_path : String)
    (inventory : Except String (List (List ShapeData))) : StyleConfig :=
  if template_exists = false then get_hpe_default_style
  else
    match inventory with
    | .error _ => get_hpe_default_style
    | .ok inv => buildStyleConfig template_path (scanInventory inv)

/-! ## C9: first-match-wins placeholder scanning -/

/-- A shape whose first paragraph carries a truthy font name. -/
def hasFont (sh : ShapeData) : Bool :=
  match sh.paragraphs with
  | [] => false
  | fp :: _ => pyTruthy fp.font_name

def titleEligible (sh : ShapeData) : Bool :=
  hasFont sh && isTitleType sh.placeholder_type

def bodyEligible (sh : ShapeData) : Bool :=
  hasFont sh && isBodyType sh.placeholder_type

/-- The font information a shape contributes: name, bold flag and parsed
colour of its first paragraph. -/
def shapeInfo (sh : ShapeData) : Option (String × Option Bool × Option (Int × Int × Int)) :=
  match sh.paragraphs with
  | [] => none
  | fp :: _ =>
      match fp.font_name with
      | none => none
      | some n => some (n, fp.bold, _parse_color fp.color)

def titleInfo (st : ScanState) : Option (String × Option Bool × Option (Int × Int × Int)) :=
  st.title_font_name.map (fun n => (n, st.title_font_bold, st.title_font_color))

def bodyInfo (st : ScanState) : Option (String × Option Bool × Option (Int × Int × Int)) :=
  st.body_font_name.map (fun n => (n, st.body_font_bold, st.body_font_color))

/-- Reachable scan states never store an empty font name. -/
def GoodSt (st : ScanState) : Prop :=
  st.title_font_name ≠ some "" ∧ st.body_font_name ≠ some ""

/-! ## Directory operations of utils/self_hosted_mineru.py

A result directory at a moment in time is an association list from file
names to byte contents in directory-iteration order; `Path.glob` on a
suffix pattern keeps the names ending in the suffix (pathlib does not
special-case hidden files). -/

def insSorted (s : String) : List String → List String
  | [] => [s]
  | t :: r => if s ≤ t then s :: t :: r else t :: insSorted s r

/-- Python's `sorted` on strings: ascending lexicographic order on
code points. -/
def sortStrs (l : List String) : List String := l.foldr insSorted []

/-- The message raised by `_ensure_layout_json_from_middle_json`
(lines 126-130). -/
def middleErrMsg (extract_dir : String) (sorted_names : List String) : String :=
  "Multiple *_middle.json files found but layout.json is missing. " ++
  "Cannot choose which to copy in " ++ extract_dir ++ ".\nCandidates:\n" ++
  String.intercalate "\n" sorted_names

/-- `_ensure_layout_json_from_middle_json` (lines 104-132). -/
def ensure_layout_json_from_middle_json (extract_dir_path : String)
    (dir : List (String × List Nat)) (pdf_stem : String) :
    Except String (List (String × List Nat)) :=
  if (dir.lookup "layout.json").isSome then .ok dir
  else
    let middle_candidates := dir.filter (fun f => pyEndsWith f.1 "_middle.json")
    let chosen : Option (List Nat) :=
      match dir.lookup (pdf_stem ++ "_middle.json") with
      | some c => some c
      | none =>
          if middle_candidates.length = 1 then (middle_candidates.head?).map Prod.snd
          else none
    match chosen with
    | none =>
        if middle_candidates.isEmpty then .ok dir
        else .error (middleErrMsg extract_dir_path (sortStrs (middle_candidates.map Prod.fst)))
    | some content => .ok (dir ++ [("layout.json", content)])

/-! ## `_post_file_parse` (lines 135-155) and the zip check (lines 211-219) -/

def truncateSnippet (text : String) : String :=
  if 10000 < text.length then String.mk (text.data.take 10000) ++ "\n... (truncated) ..."
  else text

def httpErrMsg (status : Nat) (snippet : String) : String :=
  "Self-hosted MinerU error HTTP " ++ toString status ++ ": " ++ snippet

/-- `_post_file_parse` after the request returned: `ok`, `status` and `text`
come from the response; the body is returned only for a success status. -/
def _post_file_parse (ok : Bool) (status : Nat) (text : String)
    (content : List Nat) : Except String (List Nat) :=
  if ok = false then .error (httpErrMsg status (truncateSnippet text))
  else .ok content

def nonZipMsg (zip_path snippet : String) : String :=
  "Self-hosted MinerU returned non-zip payload. Saved to " ++ zip_path ++
  ". Snippet:\n" ++ snippet

structure ZipSaveOutcome where
  writes : List (String × List Nat)
  result : Except String Unit
deriving Repr

/-- Lines 211-219 of `parse_pdf_via_self_hosted_mineru`: the raw response
body is written to `zip_path` before the zip check; a non-zip body then
raises.  `is_zipfile` abstracts `zipfile.is_zipfile` and `decode` abstracts
UTF-8 decoding with replacement characters. -/
def save_and_check_zip (zip_path : String) (content : List Nat)
    (is_zipfile : List Nat → Bool) (decode : List Nat → String) : ZipSaveOutcome :=
  { writes := [(zip_path, content)],
    result :=
      if is_zipfile content = false then
        .error (nonZipMsg zip_path (decode (content.take 5000)))
      else .ok () }

/-! ## The content-list post-condition (lines 227-240) -/

def missingHeader (extract_dir : String) : String :=
  "Self-hosted MinerU ZIP extracted, but no *_content_list.json was found under "
    ++ extract_dir ++ ".\nExtracted entries:\n"

/-- The `MissingArtifactError` message with its capped directory preview. -/
def mkMissingArtifactMsg (extract_dir : String) (entries : List String) : String :=
  missingHeader extract_dir ++
    (if 200 < (sortStrs entries).length then
      String.intercalate "\n" ((sortStrs entries).take 200) ++ "\n... (truncated) ..."
    else String.intercalate "\n" ((sortStrs entries).take 200))

/-- Lines 227-240: `top_names` are the names directly under `extract_dir`
(for the `*_content_list.json` glob) and `all_entries` its recursive
listing as relative paths (for the diagnostic preview). -/
def validate_content_list (extract_id extract_dir : String)
    (top_names : List String) (all_entries : List String) :
    Except String (String × String) :=
  if (top_names.filter (fun n => pyEndsWith n "_content_list.json")).isEmpty then
    .error (mkMissingArtifactMsg extract_dir all_entries)
  else .ok (extract_id, extract_dir)

/-! ## `_flatten_single_top_level_dir` (lines 66-101)

The extraction directory is a list of named filesystem nodes in iteration
order; a node is a plain file or a directory with its own named children.
A collision error is reported as raised; the model does not track the
partially-renamed directory state behind a raised error, which the source
discards too. -/

inductive FsNode where
  | file : FsNode
  | dir : List (String × FsNode) → FsNode

/-- `PurePath.suffix`: the final dot-extension of a name, empty when the
last dot is absent, leading or trailing. -/
def pySuffix (name : String) : String :=
  if (name.data.reverse.takeWhile (· != '.')) ≠ [] ∧
      (name.data.reverse.takeWhile (· != '.')).length + 1 < name.data.length then
    String.mk ('.' :: (name.data.reverse.takeWhile (· != '.')).reverse)
  else ""

def pyLower (s : String) : String := String.mk (s.data.map Char.toLower)

def isIgnoredName (n : String) : Bool := n == "__MACOSX" || n == ".DS_Store"

def isFileNode : FsNode → Bool
  | .file => true
  | .dir _ => false

/-- The candidate entries of the flatten step: not ignored metadata, and not
a saved `.zip` file (case-insensitive extension). -/
def flattenCandidates (top : List (String × FsNode)) : List (String × FsNode) :=
  top.filter (fun e => !isIgnoredName e.1 && !(isFileNode e.2 && pyLower (pySuffix e.1) == ".zip"))

/-- The rename loop of lines 92-96: each child of the single top-level
directory is moved to the top level, failing when its target name exists. -/
def moveLoop (extract_dir_path : String) (acc : List (String × FsNode)) :
    List (String × FsNode) → Except String (List (String × FsNode))
  | [] => .ok acc
  | (n, node) :: rest =>
      if (acc.map Prod.fst).contains n then
        .error ("Cannot flatten zip output; target already exists: "
          ++ extract_dir_path ++ "/" ++ n)
      else moveLoop extract_dir_path (acc ++ [(n, node)]) rest

def _flatten_single_top_level_dir (extract_dir_path : String)
    (top : List (String × FsNode)) : Except String (List (String × FsNode)) :=
  match flattenCandidates top with
  | [only] =>
      match only.2 with
      | .file => .ok top
      | .dir children =>
          (moveLoop extract_dir_path top children).map
            (fun res => res.eraseP (fun e => e.1 == only.1))
  | _ => .ok top

/-! ## `_safe_extractall` (lines 54-63)

Paths are lists of name components; `Path.resolve()` is lexical
normalisation of empty, `.` and `..` components starting from the (already
resolved, non-root) output directory — symbolic links are not modelled.
A zip member name is split on `/`; a member name starting with `/` makes
`out_dir / member` discard `out_dir` entirely, following `pathlib`. -/

def resolveComps (base : List String) : List String → List String
  | [] => base
  | c :: rest =>
      if c = "" ∨ c = "." then resolveComps base rest
      else if c = ".." then resolveComps base.dropLast rest
      else resolveComps (base ++ [c]) rest

structure ZipEntry where
  absolute : Bool
  comps : List String
deriving Repr, DecidableEq

/-- `(out_dir_resolved / member.filename).resolve()`. -/
def destOf (outDir : List String) (m : ZipEntry) : List String :=
  resolveComps (if m.absolute then [] else outDir) m.comps

/-- The characters of `str(p)` for an absolute path with the given
components. -/
def pathChars (comps : List String) : List Char :=
  (comps.map (fun c => '/' :: c.data)).flatten

def filenameOf (m : ZipEntry) : String :=
  (if m.absolute then "/" else "") ++ String.intercalate "/" m.comps

/-- The acceptance test of line 61:
`str(dest).startswith(str(out_dir) + os.sep) or dest == out_dir`. -/
def member_ok (outDir dest : List String) : Bool :=
  (pathChars outDir ++ ['/']).isPrefixOf (pathChars dest) || dest == outDir

/-- The checking loop of lines 59-62, returning the first raised message. -/
def checkMembers (outDir : List String) : List ZipEntry → Option String
  | [] => none
  | m :: rest =>
      if member_ok outDir (destOf outDir m) then checkMembers outDir rest
      else some ("Unsafe path in zip: " ++ filenameOf m)

/-- `_safe_extractall`: the destination paths written by `zf.extractall`
paired with the raised error, if any; the checking loop runs to completion
before extraction starts, so a raised error means zero files written. -/
def _safe_extractall (outDir : List String) (members : List ZipEntry) :
    List (List String) × Option String :=
  match checkMembers outDir members with
  | some e => ([], some e)
  | none => (members.map (destOf outDir), none)

/-- A well-formed resolved path component: nonempty and slash-free. -/
abbrev WfName (c : String) : Prop := c ≠ "" ∧ '/' ∉ c.data

/-- The output directory is an already-resolved non-root absolute path. -/
abbrev WfDir (outDir : List String) : Prop := outDir ≠ [] ∧ ∀ c ∈ outDir, WfName c

/-- Member components come from splitting the name on `/`. -/
abbrev WfEntry (m : ZipEntry) : Prop := ∀ c ∈ m.comps, '/' ∉ c.data

/-! ## General helper lemmas on character lists -/

theorem head?_dropWhile_clean (p : Char → Bool) (l : List Char) {c : Char}
    (h : (l.dropWhile p).head? = some c) : p c = false := by
  have w : l.dropWhile p ≠ [] := by
    intro e
    rw [e] at h
    exact Option.noConfusion h
  have hh := List.head_dropWhile_not p l w
  have he : (l.dropWhile p).head w = c := by
    have h2 := List.head?_eq_head w
    rw [h2] at h
    exact Option.some.inj h
  rwa [he] at hh

theorem dropWhile_eq_self_of_head (p : Char → Bool) (l : List Char)
    (h : ∀ c, l.head? = some c → p c = false) : l.dropWhile p = l := by
  cases l with
  | nil => rfl
  | cons a t => simp [List.dropWhile_cons, h a rfl]

theorem getLast?_of_isSuf {l t : List Char} (h : l <:+ t) (hl : l ≠ []) :
    t.getLast? = l.getLast? := by
  obtain ⟨u, rfl⟩ := h
  rw [List.getLast?_append]
  obtain ⟨c, hc⟩ := Option.isSome_iff_exists.mp (List.getLast?_isSome.mpr hl)
  rw [hc]
  rfl

theorem head?_of_isPre {l t : List Char} (h : l <+: t) (hl : l ≠ []) :
    t.head? = l.head? := by
  obtain ⟨u, rfl⟩ := h
  cases l with
  | nil => exact absurd rfl hl
  | cons a r => rfl

theorem stripChars_head_clean (l : List Char) {c : Char}
    (h : (stripChars l).head? = some c) : pyWs c = false := by
  unfold stripChars at h
  rw [List.head?_reverse] at h
  have hne : (l.dropWhile pyWs).reverse.dropWhile pyWs ≠ [] := by
    intro e
    rw [e] at h
    exact Option.noConfusion h
  have hsuf : ((l.dropWhile pyWs).reverse).dropWhile pyWs <:+ (l.dropWhile pyWs).reverse :=
    List.dropWhile_suffix pyWs
  have h2 := getLast?_of_isSuf hsuf hne
  rw [h] at h2
  rw [List.getLast?_reverse] at h2
  exact head?_dropWhile_clean pyWs l h2

theorem stripChars_last_clean (l : List Char) {c : Char}
    (h : (stripChars l).getLast? = some c) : pyWs c = false := by
  unfold stripChars at h
  rw [List.getLast?_reverse] at h
  exact head?_dropWhile_clean pyWs _ h

theorem stripChars_of_clean (l : List Char)
    (h1 : ∀ c, l.head? = some c → pyWs c = false)
    (h2 : ∀ c, l.getLast? = some c → pyWs c = false) :
    stripChars l = l := by
  unfold stripChars
  rw [dropWhile_eq_self_of_head pyWs l h1]
  rw [dropWhile_eq_self_of_head pyWs l.reverse
        (fun c hc => h2 c (by rwa [List.head?_reverse] at hc))]
  exact List.reverse_reverse l

theorem stripChars_idem (l : List Char) : stripChars (stripChars l) = stripChars l :=
  stripChars_of_clean _ (fun _ h => stripChars_head_clean l h)
    (fun _ h => stripChars_last_clean l h)

theorem stringMk_data : ∀ s : String, String.mk s.data = s
  | ⟨_⟩ => rfl

theorem data_eq_nil_iff (s : String) : s.data = [] ↔ s = "" := by
  constructor
  · intro h
    have := stringMk_data s
    rw [h] at this
    exact this.symm
  · intro h
    rw [h]

theorem pyStrip_idem (s : String) : pyStrip (pyStrip s) = pyStrip s :=
  congrArg String.mk (stripChars_idem s.data)

theorem rstripSlashChars_isPre (l : List Char) : rstripSlashChars l <+: l := by
  have hx : l.reverse.dropWhile (· == '/') <:+ l.reverse := List.dropWhile_suffix _
  obtain ⟨u, hu⟩ := hx
  refine ⟨u.reverse, ?_⟩
  show (l.reverse.dropWhile (· == '/')).reverse ++ u.reverse = l
  rw [← List.reverse_append, hu, List.reverse_reverse]

/-! ## C10: behaviour of `resolve_self_hosted_endpoint` -/

theorem pyEndsWith_append (a b : String) : pyEndsWith (a ++ b) b = true := by
  simp only [pyEndsWith, String.data_append, List.isSuffixOf_iff_suffix]
  exact ⟨a.data, rfl⟩

theorem default_endsWith : pyEndsWith DEFAULT_SELF_HOSTED_ENDPOINT "/file_parse" = true := by
  decide

theorem resolve_of_blank (s : String) (h : pyStrip s = "") :
    resolve_self_hosted_endpoint s = DEFAULT_SELF_HOSTED_ENDPOINT := by
  simp [resolve_self_hosted_endpoint, h, resolveUrl, default_endsWith]

theorem resolve_of_suffix (s : String) (h0 : pyStrip s ≠ "")
    (h1 : pyEndsWith (pyStrip s) "/file_parse" = true) :
    resolve_self_hosted_endpoint s = pyStrip s := by
  simp [resolve_self_hosted_endpoint, h0, resolveUrl, h1]

theorem resolve_of_no_suffix (s : String) (h0 : pyStrip s ≠ "")
    (h1 : pyEndsWith (pyStrip s) "/file_parse" = false) :
    resolve_self_hosted_endpoint s = pyRstripSlash (pyStrip s) ++ "/file_parse" := by
  simp [resolve_self_hosted_endpoint, h0, resolveUrl, h1]

theorem resolve_endsWith (s : String) :
    pyEndsWith (resolve_self_hosted_endpoint s) "/file_parse" = true := by
  by_cases h0 : pyStrip s = ""
  · rw [resolve_of_blank s h0]
    exact default_endsWith
  · by_cases h1 : pyEndsWith (pyStrip s) "/file_parse" = true
    · rw [resolve_of_suffix s h0 h1]
      exact h1
    · rw [resolve_of_no_suffix s h0 (Bool.not_eq_true _ ▸ h1)]
      exact pyEndsWith_append _ _

theorem pyStrip_rstrip_append (x : String) :
    pyStrip (pyRstripSlash (pyStrip x) ++ "/file_parse")
      = pyRstripSlash (pyStrip x) ++ "/file_parse" := by
  have hdata : (pyRstripSlash (pyStrip x) ++ "/file_parse").data
      = rstripSlashChars (stripChars x.data) ++ "/file_parse".data := by
    rw [String.data_append]
    rfl
  have hstrip : stripChars ((pyRstripSlash (pyStrip x) ++ "/file_parse").data)
      = (pyRstripSlash (pyStrip x) ++ "/file_parse").data := by
    rw [hdata]
    apply stripChars_of_clean
    · intro c hc
      rw [List.head?_append] at hc
      cases ha : (rstripSlashChars (stripChars x.data)).head? with
      | none =>
        rw [ha, Option.none_or] at hc
        have hfp : ("/file_parse".data).head? = some '/' := rfl
        rw [hfp] at hc
        rw [← Option.some.inj hc]
        decide
      | some a =>
        rw [ha, Option.or_some] at hc
        have hAne : rstripSlashChars (stripChars x.data) ≠ [] := by
          intro e
          rw [e] at ha
          exact Option.noConfusion ha
        have hpre : (stripChars x.data).head?
            = (rstripSlashChars (stripChars x.data)).head? :=
          head?_of_isPre (rstripSlashChars_isPre _) hAne
        exact stripChars_head_clean x.data (hpre.trans (ha.trans hc))
    · intro c hc
      rw [List.getLast?_append] at hc
      have hfp : ("/file_parse".data).getLast? = some 'e' := by decide
      rw [hfp, Option.or_some] at hc
      rw [← Option.some.inj hc]
      decide
  calc pyStrip (pyRstripSlash (pyStrip x) ++ "/file_parse")
      = String.mk (stripChars ((pyRstripSlash (pyStrip x) ++ "/file_parse").data)) := rfl
    _ = String.mk ((pyRstripSlash (pyStrip x) ++ "/file_parse").data) := congrArg _ hstrip
    _ = pyRstripSlash (pyStrip x) ++ "/file_parse" := stringMk_data _

theorem pyStrip_resolve (s : String) :
    pyStrip (resolve_self_hosted_endpoint s) = resolve_self_hosted_endpoint s := by
  by_cases h0 : pyStrip s = ""
  · rw [resolve_of_blank s h0]
    decide
  · by_cases h1 : pyEndsWith (pyStrip s) "/file_parse" = true
    · rw [resolve_of_suffix s h0 h1]
      exact pyStrip_idem s
    · rw [resolve_of_no_suffix s h0 (Bool.not_eq_true _ ▸ h1)]
      exact pyStrip_rstrip_append s

theorem resolve_idem (s : String) :
    resolve_self_hosted_endpoint (resolve_self_hosted_endpoint s)
      = resolve_self_hosted_endpoint s := by
  have hend := resolve_endsWith s
  have hclean := pyStrip_resolve s
  have hne : pyStrip (resolve_self_hosted_endpoint s) ≠ "" := by
    rw [hclean]
    intro e
    rw [e] at hend
    exact absurd hend (by decide)
  rw [resolve_of_suffix _ hne (by rw [hclean]; exact hend), hclean]

/-- C10: `resolve_self_hosted_endpoint` always returns a URL ending in
`/file_parse`; blank input yields the default endpoint; input already ending
in `/file_parse` is returned as stripped; otherwise `/file_parse` is appended
after removing trailing slashes; and the function is idempotent. -/
theorem C10_resolve_endpoint (s : String) :
    pyEndsWith (resolve_self_hosted_endpoint s) "/file_parse" = true ∧
    (pyStrip s = "" → resolve_self_hosted_endpoint s = DEFAULT_SELF_HOSTED_ENDPOINT) ∧
    (pyStrip s ≠ "" → pyEndsWith (pyStrip s) "/file_parse" = true →
      resolve_self_hosted_endpoint s = pyStrip s) ∧
    (pyStrip s ≠ "" → pyEndsWith (pyStrip s) "/file_parse" = false →
      resolve_self_hosted_endpoint s = pyRstripSlash (pyStrip s) ++ "/file_parse") ∧
    resolve_self_hosted_endpoint (resolve_self_hosted_endpoint s)
      = resolve_self_hosted_endpoint s :=
  ⟨resolve_endsWith s, resolve_of_blank s, resolve_of_suffix s,
    resolve_of_no_suffix s, resolve_idem s⟩

/-- Witness for C10 at a concrete input: the base URL form gets
`/file_parse` appended after trailing slashes are removed. -/
theorem C10_witness :
    pyStrip " http://h:1// " ≠ "" ∧
    pyEndsWith (pyStrip " http://h:1// ") "/file_parse" = false ∧
    resolve_self_hosted_endpoint " http://h:1// "
      = pyRstripSlash (pyStrip " http://h:1// ") ++ "/file_parse" :=
  ⟨by decide, by decide,
    (C10_resolve_endpoint " http://h:1// ").2.2.2.1 (by decide) (by decide)⟩

/-! ## C4: behaviour of `_parse_color` -/

theorem exists_six {l : List Char} (h : l.length = 6) :
    ∃ a b c d e f, l = [a, b, c, d, e, f] := by
  rcases l with _ | ⟨a, l⟩
  · simp at h
  rcases l with _ | ⟨b, l⟩
  · simp at h
  rcases l with _ | ⟨c, l⟩
  · simp at h
  rcases l with _ | ⟨d, l⟩
  · simp at h
  rcases l with _ | ⟨e, l⟩
  · simp at h
  rcases l with _ | ⟨f, l⟩
  · simp at h
  rcases l with _ | ⟨g, l⟩
  · exact ⟨a, b, c, d, e, f, rfl⟩
  · simp at h

theorem hex_not_ws {c : Char} (h : isHexDigitCh c = true) : pyWs c = false := by
  by_contra hw
  have hw' : pyWs c = true := by
    cases hv : pyWs c
    · exact absurd hv hw
    · rfl
  simp only [pyWs, Bool.or_eq_true, beq_iff_eq] at hw'
  rcases hw' with ((((rfl | rfl) | rfl) | rfl) | rfl) | rfl <;> exact absurd h (by decide)

theorem hex_ne_of {c : Char} (h : isHexDigitCh c = true) (d : Char)
    (hd : isHexDigitCh d = false) : c ≠ d := by
  intro e
  rw [e, hd] at h
  exact Bool.noConfusion h

theorem stripChars_pair {a b : Char} (ha : pyWs a = false) (hb : pyWs b = false) :
    stripChars [a, b] = [a, b] := by
  apply stripChars_of_clean
  · intro c hc
    have : a = c := Option.some.inj hc
    rwa [← this]
  · intro c hc
    have hbc : ([a, b] : List Char).getLast? = some b := rfl
    rw [hbc] at hc
    have : b = c := Option.some.inj hc
    rwa [← this]

theorem pyIntBase16_pair (a b : Char) (ha : isHexDigitCh a = true)
    (hb : isHexDigitCh b = true) :
    pyIntBase16 [a, b] = some ((16 * hexDigitVal a + hexDigitVal b : Nat) : Int) := by
  have hst : stripChars [a, b] = [a, b] := stripChars_pair (hex_not_ws ha) (hex_not_ws hb)
  have hu : unsigned [a, b] = [a, b] := by
    simp [unsigned, hex_ne_of ha '-' (by decide), hex_ne_of ha '+' (by decide)]
  have hsg : signOf [a, b] = 1 := by
    simp [signOf, hex_ne_of ha '-' (by decide)]
  have hhb : hexBody [a, b] = parseHexDigits [a, b] := by
    simp [hexBody, hex_ne_of hb 'x' (by decide), hex_ne_of hb 'X' (by decide)]
  have hpd : parseHexDigits [a, b] = some (16 * hexDigitVal a + hexDigitVal b) := by
    simp [parseHexDigits, ha, hexDigitsGo, hex_ne_of hb '_' (by decide), hb]
  unfold pyIntBase16
  rw [hst, hu, hsg, hhb, hpd]
  simp

/-- C4 as stated is false on the code: `"#FF0000"` does not match
`[0-9A-Fa-f]{6}` yet `_parse_color` returns the triple `(255, 0, 0)` because
the implementation first strips leading `#` characters. -/
theorem C4_claim_counterexample :
    matchesHex6 "#FF0000" = false ∧ _parse_color (some "#FF0000") = some (255, 0, 0) := by
  constructor
  · decide
  · decide

/-- C4 (amended): `_parse_color` never raises (it is total, returning an
option); `None` and the empty string give no colour; whenever the input has
anything other than exactly six characters after stripping leading `#`
characters the result is no colour; and an input that, after stripping
leading `#` characters, matches `[0-9A-Fa-f]{6}` yields the RGB triple of
its three hexadecimal byte pairs. -/
theorem C4_parse_color_amended (s : String) :
    _parse_color none = none ∧
    _parse_color (some "") = none ∧
    ((s.data.dropWhile (· == '#')).length ≠ 6 → _parse_color (some s) = none) ∧
    (s ≠ "" → matchesHex6 (String.mk (s.data.dropWhile (· == '#'))) = true →
      _parse_color (some s)
        = specHexTriple (String.mk (s.data.dropWhile (· == '#')))) := by
  refine ⟨rfl, rfl, ?_, ?_⟩
  · intro h
    by_cases hd : s.data = []
    · simp [_parse_color, hd]
    · simp [_parse_color, hd, h]
  · intro hs hmatch
    have hdne : s.data ≠ [] := fun e => hs ((data_eq_nil_iff s).mp e)
    simp only [matchesHex6, Bool.and_eq_true, beq_iff_eq, List.all_eq_true] at hmatch
    obtain ⟨h6, hall⟩ := hmatch
    have h6' : (s.data.dropWhile (· == '#')).length = 6 := h6
    obtain ⟨a, b, c, d, e, f, hteq⟩ := exists_six h6'
    have ha : isHexDigitCh a = true := hall a (by rw [hteq]; simp)
    have hb : isHexDigitCh b = true := hall b (by rw [hteq]; simp)
    have hc : isHexDigitCh c = true := hall c (by rw [hteq]; simp)
    have hd : isHexDigitCh d = true := hall d (by rw [hteq]; simp)
    have he : isHexDigitCh e = true := hall e (by rw [hteq]; simp)
    have hf : isHexDigitCh f = true := hall f (by rw [hteq]; simp)
    simp only [_parse_color, if_neg hdne]
    rw [hteq]
    have h1 := pyIntBase16_pair a b ha hb
    have h2 := pyIntBase16_pair c d hc hd
    have h3 := pyIntBase16_pair e f he hf
    simp only [List.take, List.drop] at *
    rw [h1, h2, h3]
    rfl

/-- Witness for the amended C4 at a concrete input: `"#ff00aa"` strips to a
matching six-character string and parses to `(255, 0, 170)`. -/
theorem C4_amended_witness :
    ("#ff00aa" : String) ≠ "" ∧
    matchesHex6 (String.mk (("#ff00aa" : String).data.dropWhile (· == '#'))) = true ∧
    _parse_color (some "#ff00aa")
      = specHexTriple (String.mk (("#ff00aa" : String).data.dropWhile (· == '#'))) :=
  ⟨by decide, by decide,
    (C4_parse_color_amended "#ff00aa").2.2.2 (by decide) (by decide)⟩

/-! ## C5: `generate_clean_backgrounds` without credentials -/

/-- C5: when either VolcEngine credential is missing (unset or empty), the
background-synthesis step returns the original page image list unchanged,
whatever the inpainting helper would do. -/
theorem C5_no_credentials_identity (ak sk : Option String)
    (image_paths : List String) (inpaint : List String → List String)
    (h : pyTruthy ak = false ∨ pyTruthy sk = false) :
    generate_clean_backgrounds ak sk image_paths inpaint = image_paths := by
  rcases h with h | h <;> simp [generate_clean_backgrounds, h]

/-- Witness for C5: with no access key configured, two page images come back
unchanged even though the inpainting helper would drop everything. -/
theorem C5_witness :
    (pyTruthy none = false ∨ pyTruthy (some "sk") = false) ∧
    generate_clean_backgrounds none (some "sk") ["page_000.png", "page_001.png"]
      (fun _ => []) = ["page_000.png", "page_001.png"] :=
  ⟨Or.inl rfl, C5_no_credentials_identity _ _ _ _ (Or.inl rfl)⟩

/-! ## C6: fallback to the brand defaults -/

/-- C6: `extract_styles` is total (never raises), and a missing template file
or any import/parse failure yields exactly the HPE brand-default
`StyleConfig`: title font `HPE Graphik Semibold` in bold, body font
`HPE Graphik` not bold. -/
theorem C6_extract_styles_fallback (template_path : String)
    (inventory : Except String (List (List ShapeData))) (err : String) :
    extract_styles false template_path inventory = get_hpe_default_style ∧
    extract_styles true template_path (.error err) = get_hpe_default_style ∧
    get_hpe_default_style.title_font.name = "HPE Graphik Semibold" ∧
    get_hpe_default_style.title_font.bold = true ∧
    get_hpe_default_style.body_font.name = "HPE Graphik" ∧
    get_hpe_default_style.body_font.bold = false :=
  ⟨rfl, rfl, rfl, rfl, rfl, rfl⟩

theorem title_not_body {t : Option String} (h : isTitleType t = true) :
    isBodyType t = false := by
  simp only [isTitleType, Bool.or_eq_true, beq_iff_eq] at h
  rcases h with rfl | rfl <;> rfl

theorem pyTruthy_some_iff {n : String} : pyTruthy (some n) = true ↔ n ≠ "" := by
  simp [pyTruthy]

theorem titleInfo_none_of_falsy {st : ScanState} (hg : GoodSt st)
    (h : pyTruthy st.title_font_name = false) : st.title_font_name = none := by
  cases hv : st.title_font_name with
  | none => rfl
  | some m =>
    rw [hv] at h
    have : m = "" := by
      by_contra hm
      rw [pyTruthy_some_iff.mpr hm] at h
      exact Bool.noConfusion h
    rw [this] at hv
    exact absurd hv hg.1

theorem bodyInfo_none_of_falsy {st : ScanState} (hg : GoodSt st)
    (h : pyTruthy st.body_font_name = false) : st.body_font_name = none := by
  cases hv : st.body_font_name with
  | none => rfl
  | some m =>
    rw [hv] at h
    have : m = "" := by
      by_contra hm
      rw [pyTruthy_some_iff.mpr hm] at h
      exact Bool.noConfusion h
    rw [this] at hv
    exact absurd hv hg.2

theorem scan_foldl_spec (l : List ShapeData) (st : ScanState) (hg : GoodSt st) :
    titleInfo (l.foldl scanShape st)
      = (titleInfo st).or ((l.find? titleEligible).bind shapeInfo) ∧
    bodyInfo (l.foldl scanShape st)
      = (bodyInfo st).or ((l.find? bodyEligible).bind shapeInfo) ∧
    GoodSt (l.foldl scanShape st) := by
  induction l generalizing st with
  | nil =>
    refine ⟨?_, ?_, hg⟩ <;> simp
  | cons sh rest ih =>
    rw [List.foldl_cons]
    cases hpar : sh.paragraphs with
    | nil =>
      have hsc : scanShape st sh = st := by simp [scanShape, hpar]
      have hte : titleEligible sh = false := by simp [titleEligible, hasFont, hpar]
      have hbe : bodyEligible sh = false := by simp [bodyEligible, hasFont, hpar]
      rw [hsc, List.find?_cons_of_neg _ (by simp [hte]),
          List.find?_cons_of_neg _ (by simp [hbe])]
      exact ih st hg
    | cons fp tl =>
      by_cases hfn : pyTruthy fp.font_name = true
      · obtain ⟨n, hfs⟩ : ∃ n, fp.font_name = some n := by
          cases hv : fp.font_name with
          | none => rw [hv] at hfn; exact Bool.noConfusion hfn
          | some n => exact ⟨n, rfl⟩
        have hnne : n ≠ "" := pyTruthy_some_iff.mp (hfs ▸ hfn)
        have hinfo : shapeInfo sh = some (n, fp.bold, _parse_color fp.color) := by
          simp [shapeInfo, hpar, hfs]
        by_cases hti : isTitleType sh.placeholder_type = true
        · have hbo : isBodyType sh.placeholder_type = false := title_not_body hti
          have hte : titleEligible sh = true := by
            simp [titleEligible, hasFont, hpar, hfn, hti]
          have hbe : bodyEligible sh = false := by
            simp [bodyEligible, hasFont, hpar, hbo]
          rw [List.find?_cons_of_pos _ (by simp [hte]),
              List.find?_cons_of_neg _ (by simp [hbe])]
          by_cases hcur : pyTruthy st.title_font_name = false
          · have hstn : st.title_font_name = none := titleInfo_none_of_falsy hg hcur
            have hsc : scanShape st sh =
                { st with
                  title_font_name := fp.font_name,
                  title_font_bold := fp.bold,
                  title_font_color := _parse_color fp.color } := by
              simp [scanShape, hpar, hfn, hti, hcur]
            rw [hsc]
            obtain ⟨iht, ihb, ihg⟩ := ih
              { st with
                title_font_name := fp.font_name,
                title_font_bold := fp.bold,
                title_font_color := _parse_color fp.color }
              ⟨by simp [hfs, hnne], hg.2⟩
            refine ⟨?_, ?_, ihg⟩
            · rw [iht]
              simp [titleInfo, hfs, hinfo, hstn]
            · rw [ihb]
              simp [bodyInfo]
          · have hstv : ∃ m, st.title_font_name = some m := by
              cases hv : st.title_font_name with
              | none => rw [hv] at hcur; exact absurd rfl hcur
              | some m => exact ⟨m, rfl⟩
            obtain ⟨m, hm⟩ := hstv
            have hsc : scanShape st sh = st := by
              simp [scanShape, hpar, hfn, hti, hcur]
            rw [hsc]
            obtain ⟨iht, ihb, ihg⟩ := ih st hg
            refine ⟨?_, ?_, ihg⟩
            · rw [iht]
              simp [titleInfo, hm]
            · rw [ihb]
        · by_cases hbo : isBodyType sh.placeholder_type = true
          · have hte : titleEligible sh = false := by
              simp only [titleEligible, Bool.and_eq_true, not_and] at *
              simp [Bool.eq_false_iff.mpr hti]
            have hbe : bodyEligible sh = true := by
              simp [bodyEligible, hasFont, hpar, hfn, hbo]
            rw [List.find?_cons_of_neg _ (by simp [hte]),
                List.find?_cons_of_pos _ (by simp [hbe])]
            by_cases hcur : pyTruthy st.body_font_name = false
            · have hstn : st.body_font_name = none := bodyInfo_none_of_falsy hg hcur
              have hsc : scanShape st sh =
                  { st with
                    body_font_name := fp.font_name,
                    body_font_bold := fp.bold,
                    body_font_color := _parse_color fp.color } := by
                simp [scanShape, hpar, hfn, hti, hbo, hcur]
              rw [hsc]
              obtain ⟨iht, ihb, ihg⟩ := ih
                { st with
                  body_font_name := fp.font_name,
                  body_font_bold := fp.bold,
                  body_font_color := _parse_color fp.color }
                ⟨hg.1, by simp [hfs, hnne]⟩
              refine ⟨?_, ?_, ihg⟩
              · rw [iht]
                simp [titleInfo]
              · rw [ihb]
                simp [bodyInfo, hfs, hinfo, hstn]
            · have hstv : ∃ m, st.body_font_name = some m := by
                cases hv : st.body_font_name with
                | none => rw [hv] at hcur; exact absurd rfl hcur
                | some m => exact ⟨m, rfl⟩
              obtain ⟨m, hm⟩ := hstv
              have hsc : scanShape st sh = st := by
                simp [scanShape, hpar, hfn, hti, hbo, hcur]
              rw [hsc]
              obtain ⟨iht, ihb, ihg⟩ := ih st hg
              refine ⟨?_, ?_, ihg⟩
              · rw [iht]
              · rw [ihb]
                simp [bodyInfo, hm]
          · have hte : titleEligible sh = false := by
              simp [titleEligible, Bool.eq_false_iff.mpr hti]
            have hbe : bodyEligible sh = false := by
              simp [bodyEligible, Bool.eq_false_iff.mpr hbo]
            have hsc : scanShape st sh = st := by
              simp [scanShape, hpar, hfn, hti, hbo]
            rw [hsc, List.find?_cons_of_neg _ (by simp [hte]),
                List.find?_cons_of_neg _ (by simp [hbe])]
            exact ih st hg
      · have hfnF : pyTruthy fp.font_name = false := Bool.eq_false_iff.mpr hfn
        have hsc : scanShape st sh = st := by simp [scanShape, hpar, hfnF]
        have hte : titleEligible sh = false := by
          simp [titleEligible, hasFont, hpar, hfnF]
        have hbe : bodyEligible sh = false := by
          simp [bodyEligible, hasFont, hpar, hfnF]
        rw [hsc, List.find?_cons_of_neg _ (by simp [hte]),
            List.find?_cons_of_neg _ (by simp [hbe])]
        exact ih st hg

theorem goodSt_init : GoodSt {} :=
  ⟨fun h => Option.noConfusion h, fun h => Option.noConfusion h⟩

theorem scanInventory_flatten (L : List (List ShapeData)) :
    scanInventory L = (L.flatten).foldl scanShape {} := by
  rw [scanInventory, List.foldl_flatten]

theorem scanInventory_title (L : List (List ShapeData)) :
    titleInfo (scanInventory L) = ((L.flatten).find? titleEligible).bind shapeInfo := by
  rw [scanInventory_flatten]
  have h := (scan_foldl_spec (L.flatten) {} goodSt_init).1
  rwa [show titleInfo {} = none from rfl, Option.none_or] at h

theorem scanInventory_body (L : List (List ShapeData)) :
    bodyInfo (scanInventory L) = ((L.flatten).find? bodyEligible).bind shapeInfo := by
  rw [scanInventory_flatten]
  have h := (scan_foldl_spec (L.flatten) {} goodSt_init).2.1
  rwa [show bodyInfo {} = none from rfl, Option.none_or] at h

/-- C9: scanning the inventory in iteration order, the stored title font
information (family, bold flag, colour) is exactly that of the first
TITLE/CENTER_TITLE placeholder whose first paragraph carries a font name, and
the body font that of the first BODY/SUBTITLE/FOOTER placeholder likewise;
appending further slides after a category is filled leaves it unchanged. -/
theorem C9_first_match_scan (inv : List (List ShapeData)) :
    titleInfo (scanInventory inv) = ((inv.flatten).find? titleEligible).bind shapeInfo ∧
    bodyInfo (scanInventory inv) = ((inv.flatten).find? bodyEligible).bind shapeInfo ∧
    (∀ extra : List (List ShapeData),
      ((inv.flatten).find? titleEligible).isSome = true →
      titleInfo (scanInventory (inv ++ extra)) = titleInfo (scanInventory inv)) ∧
    (∀ extra : List (List ShapeData),
      ((inv.flatten).find? bodyEligible).isSome = true →
      bodyInfo (scanInventory (inv ++ extra)) = bodyInfo (scanInventory inv)) := by
  refine ⟨scanInventory_title inv, scanInventory_body inv, ?_, ?_⟩
  · intro extra hsome
    rw [scanInventory_title (inv ++ extra), scanInventory_title inv,
        List.flatten_append, List.find?_append]
    obtain ⟨x, hx⟩ := Option.isSome_iff_exists.mp hsome
    rw [hx, Option.or_some]
  · intro extra hsome
    rw [scanInventory_body (inv ++ extra), scanInventory_body inv,
        List.flatten_append, List.find?_append]
    obtain ⟨x, hx⟩ := Option.isSome_iff_exists.mp hsome
    rw [hx, Option.or_some]

/-- Witness for C9: a template with one titled TITLE placeholder keeps its
title font even when a later slide holds another TITLE placeholder. -/
theorem C9_witness :
    ((([[{ placeholder_type := some "TITLE",
           paragraphs := [{ font_name := some "Graphik Semi", bold := some true,
                            color := some "00FF00" }] }]] :
         List (List ShapeData)).flatten).find? titleEligible).isSome = true ∧
    titleInfo (scanInventory
        ([[{ placeholder_type := some "TITLE",
             paragraphs := [{ font_name := some "Graphik Semi", bold := some true,
                              color := some "00FF00" }] }]]
          ++ [[{ placeholder_type := some "TITLE",
                 paragraphs := [{ font_name := some "Other", bold := some false,
                                  color := none }] }]]))
      = titleInfo (scanInventory
          [[{ placeholder_type := some "TITLE",
              paragraphs := [{ font_name := some "Graphik Semi", bold := some true,
                               color := some "00FF00" }] }]]) :=
  ⟨by decide,
    (C9_first_match_scan
        [[{ placeholder_type := some "TITLE",
            paragraphs := [{ font_name := some "Graphik Semi", bold := some true,
                             color := some "00FF00" }] }]]).2.2.1
      [[{ placeholder_type := some "TITLE",
          paragraphs := [{ font_name := some "Other", bold := some false,
                           color := none }] }]]
      (by decide)⟩

/-! ## Sorting helper lemmas -/

theorem mem_insSorted {a s : String} {l : List String} :
    a ∈ insSorted s l ↔ a = s ∨ a ∈ l := by
  induction l with
  | nil => simp [insSorted]
  | cons t r ih =>
    by_cases h : s ≤ t
    · simp [insSorted, h]
    · simp only [insSorted, if_neg h, List.mem_cons, ih]
      tauto

theorem mem_sortStrs {a : String} {l : List String} : a ∈ sortStrs l ↔ a ∈ l := by
  induction l with
  | nil => simp [sortStrs]
  | cons t r ih =>
    show a ∈ insSorted t (sortStrs r) ↔ _
    rw [mem_insSorted, ih]
    simp

theorem length_insSorted (s : String) (l : List String) :
    (insSorted s l).length = l.length + 1 := by
  induction l with
  | nil => rfl
  | cons t r ih =>
    by_cases h : s ≤ t
    · simp [insSorted, h]
    · simp [insSorted, h, ih]

theorem length_sortStrs (l : List String) : (sortStrs l).length = l.length := by
  induction l with
  | nil => rfl
  | cons t r ih =>
    show (insSorted t (sortStrs r)).length = _
    rw [length_insSorted, ih]
    rfl

/-! ## C2: layout backfill -/

/-- C2: on a directory without `layout.json`, a present preferred
`<pdf_stem>_middle.json` — or, failing that, a unique `*_middle.json`
candidate — has its bytes copied to `layout.json`; several candidates with
no preferred one raise the configuration error whose candidate list names
every `*_middle.json` file, and no `layout.json` is produced. -/
theorem C2_layout_backfill (path pdf_stem : String) (dir : List (String × List Nat))
    (hlayout : dir.lookup "layout.json" = none) :
    (∀ c, dir.lookup (pdf_stem ++ "_middle.json") = some c →
      ensure_layout_json_from_middle_json path dir pdf_stem
        = .ok (dir ++ [("layout.json", c)])) ∧
    (∀ e, dir.lookup (pdf_stem ++ "_middle.json") = none →
      dir.filter (fun f => pyEndsWith f.1 "_middle.json") = [e] →
      ensure_layout_json_from_middle_json path dir pdf_stem
        = .ok (dir ++ [("layout.json", e.2)])) ∧
    (dir.lookup (pdf_stem ++ "_middle.json") = none →
      2 ≤ (dir.filter (fun f => pyEndsWith f.1 "_middle.json")).length →
      ensure_layout_json_from_middle_json path dir pdf_stem
        = .error (middleErrMsg path
            (sortStrs ((dir.filter (fun f => pyEndsWith f.1 "_middle.json")).map Prod.fst))) ∧
      ∀ nm ∈ (dir.filter (fun f => pyEndsWith f.1 "_middle.json")).map Prod.fst,
        nm ∈ sortStrs ((dir.filter (fun f => pyEndsWith f.1 "_middle.json")).map Prod.fst)) := by
  refine ⟨?_, ?_, ?_⟩
  · intro c hc
    simp [ensure_layout_json_from_middle_json, hlayout, hc]
  · intro e hpref hfil
    simp [ensure_layout_json_from_middle_json, hlayout, hpref, hfil]
  · intro hpref hlen
    have hne1 : (dir.filter (fun f => pyEndsWith f.1 "_middle.json")).length ≠ 1 := by
      omega
    have hnil : dir.filter (fun f => pyEndsWith f.1 "_middle.json") ≠ [] := by
      intro h
      rw [h] at hlen
      simp at hlen
    have hemp : (dir.filter (fun f => pyEndsWith f.1 "_middle.json")).isEmpty = false := by
      cases h2 : (dir.filter (fun f => pyEndsWith f.1 "_middle.json")).isEmpty
      · rfl
      · exact absurd (List.isEmpty_iff.mp h2) hnil
    refine ⟨?_, ?_⟩
    · simp [ensure_layout_json_from_middle_json, hlayout, hpref, hne1, hemp]
    · intro nm hm
      exact mem_sortStrs.mpr hm

/-- Witness for C2 at a concrete directory: two ambiguous candidates and no
preferred name raise the error listing both. -/
theorem C2_witness :
    ((([("a_middle.json", [1]), ("b_middle.json", [2])] :
        List (String × List Nat)).lookup "layout.json" = none) ∧
      ([("a_middle.json", [1]), ("b_middle.json", [2])] :
        List (String × List Nat)).lookup ("doc" ++ "_middle.json") = none ∧
      2 ≤ (([("a_middle.json", [1]), ("b_middle.json", [2])] :
        List (String × List Nat)).filter (fun f => pyEndsWith f.1 "_middle.json")).length) ∧
    ensure_layout_json_from_middle_json "/up/mineru_files/x" [("a_middle.json", [1]), ("b_middle.json", [2])] "doc"
      = .error (middleErrMsg "/up/mineru_files/x"
          (sortStrs ((([("a_middle.json", [1]), ("b_middle.json", [2])] :
            List (String × List Nat)).filter (fun f => pyEndsWith f.1 "_middle.json")).map Prod.fst))) :=
  ⟨⟨by decide, by decide, by decide⟩,
    ((C2_layout_backfill "/up/mineru_files/x" "doc"
        [("a_middle.json", [1]), ("b_middle.json", [2])] (by decide)).2.2
      (by decide) (by decide)).1⟩

/-! ## C3: response validation and payload persistence -/

/-- C3: a non-success HTTP response raises the service error carrying the
response body truncated to at most 10000 characters plus the truncation
marker (bodies of at most 10000 characters are kept whole); a success
response is returned; the raw payload is recorded on disk by the zip-saving
step whose subsequent non-zip check raises the malformed-response error. -/
theorem C3_response_validation (ok : Bool) (status : Nat) (text : String)
    (content : List Nat) (zip_path : String)
    (is_zipfile : List Nat → Bool) (decode : List Nat → String) :
    (ok = false → _post_file_parse ok status text content
        = .error (httpErrMsg status (truncateSnippet text))) ∧
    (ok = true → _post_file_parse ok status text content = .ok content) ∧
    (truncateSnippet text).length ≤ 10000 + ("\n... (truncated) ..." : String).length ∧
    (text.length ≤ 10000 → truncateSnippet text = text) ∧
    (zip_path, content) ∈ (save_and_check_zip zip_path content is_zipfile decode).writes ∧
    (is_zipfile content = false →
      (save_and_check_zip zip_path content is_zipfile decode).result
        = .error (nonZipMsg zip_path (decode (content.take 5000)))) ∧
    (is_zipfile content = true →
      (save_and_check_zip zip_path content is_zipfile decode).result = .ok ()) := by
  refine ⟨?_, ?_, ?_, ?_, ?_, ?_, ?_⟩
  · intro h
    simp [_post_file_parse, h]
  · intro h
    simp [_post_file_parse, h]
  · by_cases h : 10000 < text.length
    · rw [truncateSnippet, if_pos h]
      rw [String.length_append]
      have h1 : (String.mk (text.data.take 10000)).length = (text.data.take 10000).length := rfl
      rw [h1, List.length_take]
      omega
    · rw [truncateSnippet, if_neg h]
      omega
  · intro h
    rw [truncateSnippet, if_neg (by omega)]
  · simp [save_and_check_zip]
  · intro h
    simp [save_and_check_zip, h]
  · intro h
    simp [save_and_check_zip, h]

/-- Witness for C3 at concrete values: a 502 with a short body raises the
service error with the body kept whole, and a non-zip payload is on the
write list before its error is raised. -/
theorem C3_witness :
    (false = false) ∧
    _post_file_parse false 502 "bad gateway" [80, 75]
      = .error (httpErrMsg 502 (truncateSnippet "bad gateway")) ∧
    ("z.zip", [80, 75]) ∈ (save_and_check_zip "z.zip" [80, 75] (fun _ => false)
      (fun _ => "PK")).writes ∧
    (save_and_check_zip "z.zip" [80, 75] (fun _ => false) (fun _ => "PK")).result
      = .error (nonZipMsg "z.zip" ((fun _ => "PK") (([80, 75] : List Nat).take 5000))) :=
  ⟨rfl,
    (C3_response_validation false 502 "bad gateway" [80, 75] "z.zip"
      (fun _ => false) (fun _ => "PK")).1 rfl,
    (C3_response_validation false 502 "bad gateway" [80, 75] "z.zip"
      (fun _ => false) (fun _ => "PK")).2.2.2.2.1,
    (C3_response_validation false 502 "bad gateway" [80, 75] "z.zip"
      (fun _ => false) (fun _ => "PK")).2.2.2.2.2.1 rfl⟩

/-! ## C7: content-list post-condition -/

/-- C7: after unpacking and normalisation, a directory with some
`*_content_list.json` entry yields `(extract_id, extract_dir)`; one without
raises the missing-artifact error whose preview is the sorted recursive
listing capped at 200 entries, with a truncation marker exactly when more
exist. -/
theorem C7_missing_artifact (extract_id extract_dir : String)
    (top_names all_entries : List String) :
    ((∃ n ∈ top_names, pyEndsWith n "_content_list.json" = true) →
      validate_content_list extract_id extract_dir top_names all_entries
        = .ok (extract_id, extract_dir)) ∧
    ((∀ n ∈ top_names, pyEndsWith n "_content_list.json" = false) →
      validate_content_list extract_id extract_dir top_names all_entries
        = .error (mkMissingArtifactMsg extract_dir all_entries)) ∧
    (sortStrs all_entries).length = all_entries.length ∧
    ((sortStrs all_entries).take 200).length ≤ 200 ∧
    (∀ n ∈ all_entries, n ∈ sortStrs all_entries) ∧
    (all_entries.length ≤ 200 →
      mkMissingArtifactMsg extract_dir all_entries
        = missingHeader extract_dir ++ String.intercalate "\n" (sortStrs all_entries)) ∧
    (200 < all_entries.length →
      mkMissingArtifactMsg extract_dir all_entries
        = missingHeader extract_dir ++
          (String.intercalate "\n" ((sortStrs all_entries).take 200)
            ++ "\n... (truncated) ...")) := by
  refine ⟨?_, ?_, length_sortStrs all_entries, ?_, ?_, ?_, ?_⟩
  · rintro ⟨n, hn, hend⟩
    have hmem : n ∈ top_names.filter (fun n => pyEndsWith n "_content_list.json") :=
      List.mem_filter.mpr ⟨hn, hend⟩
    have hnil : top_names.filter (fun n => pyEndsWith n "_content_list.json") ≠ [] :=
      List.ne_nil_of_mem hmem
    have hemp : (top_names.filter (fun n => pyEndsWith n "_content_list.json")).isEmpty
        = false := by
      cases h2 : (top_names.filter (fun n => pyEndsWith n "_content_list.json")).isEmpty
      · rfl
      · exact absurd (List.isEmpty_iff.mp h2) hnil
    simp [validate_content_list, hemp]
  · intro h
    have hfil : top_names.filter (fun n => pyEndsWith n "_content_list.json") = [] :=
      List.filter_eq_nil_iff.mpr (fun a ha => by simp [h a ha])
    simp [validate_content_list, hfil]
  · rw [List.length_take]
    omega
  · intro n hn
    exact mem_sortStrs.mpr hn
  · intro h
    rw [mkMissingArtifactMsg,
        if_neg (by rw [length_sortStrs]; omega),
        List.take_of_length_le (by rw [length_sortStrs]; omega)]
  · intro h
    rw [mkMissingArtifactMsg, if_pos (by rw [length_sortStrs]; omega)]

/-- Witness for C7 at concrete directories: a directory holding only
`layout.json` raises the missing-artifact error, and one holding a
content list is accepted. -/
theorem C7_witness :
    (∀ n ∈ ["layout.json", "full.md"], pyEndsWith n "_content_list.json" = false) ∧
    validate_content_list "ab12" "/up/mineru_files/ab12" ["layout.json", "full.md"]
        ["full.md", "layout.json"]
      = .error (mkMissingArtifactMsg "/up/mineru_files/ab12" ["full.md", "layout.json"]) ∧
    (∃ n ∈ ["doc_content_list.json"], pyEndsWith n "_content_list.json" = true) ∧
    validate_content_list "cd34" "/up/mineru_files/cd34" ["doc_content_list.json"] ["doc_content_list.json"]
      = .ok ("cd34", "/up/mineru_files/cd34") :=
  ⟨by decide,
    (C7_missing_artifact "ab12" "/up/mineru_files/ab12" ["layout.json", "full.md"]
      ["full.md", "layout.json"]).2.1 (by decide),
    by decide,
    (C7_missing_artifact "cd34" "/up/mineru_files/cd34" ["doc_content_list.json"]
      ["doc_content_list.json"]).1 (by decide)⟩

/-! ## C8: flattening a single top-level directory -/

theorem contains_eq_false_iff {l : List String} {a : String} :
    l.contains a = false ↔ a ∉ l := by
  rw [← Bool.not_eq_true]
  exact not_congr List.elem_iff

theorem find?_congr_on {α : Type} {p q : α → Bool} {l : List α}
    (h : ∀ a ∈ l, p a = q a) : l.find? p = l.find? q := by
  induction l with
  | nil => rfl
  | cons a r ih =>
    have h' := h a (List.mem_cons_self a r)
    rw [List.find?_cons, List.find?_cons, h']
    cases hqa : q a
    · simp only [hqa]
      exact ih (fun x hx => h x (List.mem_cons_of_mem a hx))
    · simp only [hqa]

theorem moveLoop_no_collision (path : String) (cs : List (String × FsNode)) :
    ∀ acc : List (String × FsNode), (cs.map Prod.fst).Nodup →
    (∀ c ∈ cs, (acc.map Prod.fst).contains c.1 = false) →
    moveLoop path acc cs = .ok (acc ++ cs) := by
  induction cs with
  | nil =>
    intro acc _ _
    simp [moveLoop]
  | cons c rest ih =>
    intro acc hnd h
    obtain ⟨n, node⟩ := c
    have hc : (acc.map Prod.fst).contains n = false := h (n, node) (List.mem_cons_self _ _)
    rw [moveLoop, hc]
    simp only [Bool.false_eq_true, if_false]
    have hnd' : (rest.map Prod.fst).Nodup := by
      rw [List.map_cons] at hnd
      exact hnd.of_cons
    have hn_not : n ∉ rest.map Prod.fst := by
      rw [List.map_cons] at hnd
      exact (List.nodup_cons.mp hnd).1
    rw [ih (acc ++ [(n, node)]) hnd' ?_]
    · rw [List.append_assoc]
      rfl
    · intro c' hc'
      have hne : c'.1 ≠ n := by
        intro hEq
        exact hn_not (hEq ▸ List.mem_map_of_mem Prod.fst hc')
      rw [contains_eq_false_iff]
      rw [List.map_append, List.mem_append]
      rintro (hmem | hmem)
      · exact absurd hmem (contains_eq_false_iff.mp (h c' (List.mem_cons_of_mem _ hc')))
      · simp at hmem
        exact hne hmem

theorem moveLoop_collision (path : String) (cs : List (String × FsNode)) :
    ∀ acc : List (String × FsNode), (cs.map Prod.fst).Nodup →
    ∀ e : String × FsNode,
    cs.find? (fun c => (acc.map Prod.fst).contains c.1) = some e →
    moveLoop path acc cs
      = .error ("Cannot flatten zip output; target already exists: "
          ++ path ++ "/" ++ e.1) := by
  induction cs with
  | nil =>
    intro acc _ e h
    exact Option.noConfusion h
  | cons c rest ih =>
    intro acc hnd e h
    obtain ⟨n, node⟩ := c
    cases hc : (acc.map Prod.fst).contains n with
    | true =>
      have hside : ((fun c : String × FsNode => (acc.map Prod.fst).contains c.1) (n, node))
          = true := by
        show (acc.map Prod.fst).contains n = true
        exact hc
      have hstep : List.find? (fun c : String × FsNode => (acc.map Prod.fst).contains c.1)
          ((n, node) :: rest) = some (n, node) := List.find?_cons_of_pos rest hside
      rw [hstep] at h
      have he : (n, node) = e := Option.some.inj h
      rw [moveLoop, hc]
      simp only [if_true]
      rw [← he]
    | false =>
      have hside : ¬ ((fun c : String × FsNode => (acc.map Prod.fst).contains c.1) (n, node))
          = true := by
        show ¬ (acc.map Prod.fst).contains n = true
        rw [hc]
        exact Bool.false_ne_true
      have hstep : List.find? (fun c : String × FsNode => (acc.map Prod.fst).contains c.1)
          ((n, node) :: rest)
          = List.find? (fun c : String × FsNode => (acc.map Prod.fst).contains c.1) rest :=
        List.find?_cons_of_neg rest hside
      rw [hstep] at h
      have hnd' : (rest.map Prod.fst).Nodup := by
        rw [List.map_cons] at hnd
        exact hnd.of_cons
      have hn_not : n ∉ rest.map Prod.fst := by
        rw [List.map_cons] at hnd
        exact (List.nodup_cons.mp hnd).1
      have hc' : rest.find? (fun c => (((acc ++ [(n, node)]).map Prod.fst)).contains c.1)
          = some e := by
        rw [← h]
        apply find?_congr_on
        intro a ha
        have hne : a.1 ≠ n := by
          intro hEq
          exact hn_not (hEq ▸ List.mem_map_of_mem Prod.fst ha)
        simp [List.map_append, List.elem_eq_mem, List.mem_append, hne]
      rw [moveLoop, hc]
      simp only [Bool.false_eq_true, if_false]
      exact ih (acc ++ [(n, node)]) hnd' e hc'

/-- C8: when the non-ignored, non-zip entries of the directory are anything
other than exactly one subdirectory, the flatten step leaves it unchanged;
for exactly one subdirectory, its entries are hoisted up one level (and the
emptied directory removed) unless some hoisted name already exists at the
top level, in which case the step fails naming the colliding target. -/
theorem C8_flatten_single_top_level (path : String) (top : List (String × FsNode)) :
    ((flattenCandidates top).length ≠ 1 →
      _flatten_single_top_level_dir path top = .ok top) ∧
    (∀ nm, flattenCandidates top = [(nm, FsNode.file)] →
      _flatten_single_top_level_dir path top = .ok top) ∧
    (∀ nm ch, flattenCandidates top = [(nm, FsNode.dir ch)] →
      (ch.map Prod.fst).Nodup →
      ((∀ c ∈ ch, c.1 ∉ top.map Prod.fst) →
        _flatten_single_top_level_dir path top
          = .ok (top.eraseP (fun e => e.1 == nm) ++ ch)) ∧
      (∀ e, ch.find? (fun c => (top.map Prod.fst).contains c.1) = some e →
        _flatten_single_top_level_dir path top
          = .error ("Cannot flatten zip output; target already exists: "
              ++ path ++ "/" ++ e.1))) := by
  refine ⟨?_, ?_, ?_⟩
  · intro hlen
    unfold _flatten_single_top_level_dir
    cases hfc : flattenCandidates top with
    | nil => rfl
    | cons a l =>
      cases l with
      | nil =>
        rw [hfc] at hlen
        simp at hlen
      | cons b l2 => rfl
  · intro nm hfc
    unfold _flatten_single_top_level_dir
    rw [hfc]
  · intro nm ch hfc hnd
    have hmem : (nm, FsNode.dir ch) ∈ top := by
      have : (nm, FsNode.dir ch) ∈ flattenCandidates top := by
        rw [hfc]
        exact List.mem_cons_self _ _
      exact (List.mem_filter.mp this).1
    constructor
    · intro hnocol
      unfold _flatten_single_top_level_dir
      rw [hfc]
      show Except.map (fun res => List.eraseP (fun e => e.1 == nm) res)
            (moveLoop path top ch) = _
      rw [moveLoop_no_collision path ch top hnd
            (fun c hc => contains_eq_false_iff.mpr (hnocol c hc))]
      show Except.ok ((top ++ ch).eraseP (fun e => e.1 == nm)) = _
      rw [@List.eraseP_append_left (String × FsNode) (fun e => e.1 == nm)
            (nm, FsNode.dir ch) (by simp) top ch hmem]
    · intro e hfind
      unfold _flatten_single_top_level_dir
      rw [hfc]
      show Except.map (fun res => List.eraseP (fun e => e.1 == nm) res)
            (moveLoop path top ch) = _
      rw [moveLoop_collision path ch top hnd e hfind]
      rfl

/-- Witness for C8: a saved zip plus one bundle directory is hoisted; the
bundle entry disappears and its children surface at the top level. -/
theorem C8_witness :
    flattenCandidates
        [("doc.zip", FsNode.file),
         ("bundle", FsNode.dir [("layout.json", FsNode.file), ("images", FsNode.dir [])])]
      = [("bundle", FsNode.dir [("layout.json", FsNode.file), ("images", FsNode.dir [])])] ∧
    ((([("layout.json", FsNode.file), ("images", FsNode.dir [])] :
        List (String × FsNode)).map Prod.fst).Nodup) ∧
    _flatten_single_top_level_dir "/up/x"
        [("doc.zip", FsNode.file),
         ("bundle", FsNode.dir [("layout.json", FsNode.file), ("images", FsNode.dir [])])]
      = .ok (([("doc.zip", FsNode.file),
               ("bundle", FsNode.dir [("layout.json", FsNode.file), ("images", FsNode.dir [])])].eraseP
                (fun e => e.1 == "bundle"))
             ++ [("layout.json", FsNode.file), ("images", FsNode.dir [])]) :=
  ⟨rfl, by decide,
    ((C8_flatten_single_top_level "/up/x"
        [("doc.zip", FsNode.file),
         ("bundle", FsNode.dir [("layout.json", FsNode.file), ("images", FsNode.dir [])])]).2.2
      "bundle" [("layout.json", FsNode.file), ("images", FsNode.dir [])]
      rfl (by decide)).1 (by decide)⟩

/-! ## C1: the zip-slip guard -/

theorem resolveComps_wf (comps : List String) :
    ∀ base : List String, (∀ c ∈ base, WfName c) → (∀ c ∈ comps, '/' ∉ c.data) →
    ∀ c ∈ resolveComps base comps, WfName c := by
  induction comps with
  | nil =>
    intro base hb _ c hc
    exact hb c hc
  | cons c0 rest ih =>
    intro base hb hcs
    by_cases h1 : c0 = "" ∨ c0 = "."
    · rw [resolveComps, if_pos h1]
      exact ih base hb (fun c hc => hcs c (List.mem_cons_of_mem _ hc))
    · by_cases h2 : c0 = ".."
      · rw [resolveComps, if_neg h1, if_pos h2]
        exact ih base.dropLast (fun c hc => hb c (List.dropLast_subset base hc))
          (fun c hc => hcs c (List.mem_cons_of_mem _ hc))
      · rw [resolveComps, if_neg h1, if_neg h2]
        refine ih (base ++ [c0]) ?_ (fun c hc => hcs c (List.mem_cons_of_mem _ hc))
        intro c hc
        rcases List.mem_append.mp hc with hc | hc
        · exact hb c hc
        · have : c = c0 := by simpa using hc
          subst this
          exact ⟨fun he => h1 (Or.inl he), hcs c (List.mem_cons_self _ _)⟩

theorem pathChars_append (xs ys : List String) :
    pathChars (xs ++ ys) = pathChars xs ++ pathChars ys := by
  simp [pathChars]

theorem pathChars_head {zs : List String} (h : zs ≠ []) :
    (pathChars zs).head? = some '/' := by
  cases zs with
  | nil => exact absurd rfl h
  | cons a t => rfl

theorem nameBlock {u v : List Char} (hu : u.head? = some '/')
    (hv : v = [] ∨ v.head? = some '/') :
    ∀ {a b : List Char}, '/' ∉ a → '/' ∉ b → a ++ u <+: b ++ v → a = b ∧ u <+: v := by
  intro a
  induction a with
  | nil =>
    intro b ha hb h
    cases b with
    | nil => exact ⟨rfl, by simpa using h⟩
    | cons y bt =>
      exfalso
      obtain ⟨u', rfl⟩ : ∃ u', u = '/' :: u' := by
        cases u with
        | nil => exact Option.noConfusion hu
        | cons c cu => exact ⟨cu, by rw [Option.some.inj hu]⟩
      rw [List.nil_append, List.cons_append] at h
      have hy : '/' = y := (List.cons_prefix_cons.mp h).1
      exact hb (hy ▸ List.mem_cons_self _ _)
  | cons x at' ih =>
    intro b ha hb h
    cases b with
    | nil =>
      exfalso
      rw [List.nil_append, List.cons_append] at h
      obtain ⟨w, hw⟩ := h
      rcases hv with rfl | hv
      · simp at hw
      · have hvx : v.head? = some x := by
          rw [← hw]
          rfl
        have : x = '/' := by
          have := hvx.symm.trans hv
          exact Option.some.inj this
        exact ha (this ▸ List.mem_cons_self _ _)
    | cons y bt =>
      rw [List.cons_append, List.cons_append] at h
      obtain ⟨hxy, h'⟩ := List.cons_prefix_cons.mp h
      subst hxy
      have ha' : '/' ∉ at' := fun hm => ha (List.mem_cons_of_mem _ hm)
      have hb' : '/' ∉ bt := fun hm => hb (List.mem_cons_of_mem _ hm)
      obtain ⟨heq, hpre⟩ := ih ha' hb' h'
      exact ⟨by rw [heq], hpre⟩

theorem sep_strict_iff (xs : List String) :
    ∀ ys : List String, (∀ c ∈ xs, WfName c) → (∀ c ∈ ys, WfName c) →
    ((pathChars xs ++ ['/']) <+: pathChars ys ↔ (xs <+: ys ∧ xs ≠ ys)) := by
  induction xs with
  | nil =>
    intro ys _ _
    constructor
    · intro h
      refine ⟨⟨ys, rfl⟩, ?_⟩
      intro he
      rw [← he] at h
      obtain ⟨w, hw⟩ := h
      simp [pathChars] at hw
    · rintro ⟨-, hne⟩
      cases ys with
      | nil => exact absurd rfl hne
      | cons z zs =>
        refine ⟨z.data ++ pathChars zs, ?_⟩
        show ((pathChars ([] : List String)) ++ ['/']) ++ (z.data ++ pathChars zs)
            = pathChars (z :: zs)
        show ['/'] ++ (z.data ++ pathChars zs) = pathChars (z :: zs)
        rfl
  | cons x xt ih =>
    intro ys hxs hys
    have hxname : WfName x := hxs x (List.mem_cons_self _ _)
    have hxt : ∀ c ∈ xt, WfName c := fun c hc => hxs c (List.mem_cons_of_mem _ hc)
    have hu : (pathChars xt ++ ['/']).head? = some '/' := by
      cases xt with
      | nil => rfl
      | cons a t =>
        rw [List.head?_append, pathChars_head (by simp)]
        rfl
    cases ys with
    | nil =>
      constructor
      · intro h
        exfalso
        obtain ⟨w, hw⟩ := h
        have : pathChars (x :: xt) ++ ['/'] ++ w = [] := hw
        simp [pathChars] at this
      · rintro ⟨⟨w, hw⟩, -⟩
        exfalso
        simp at hw
    | cons y yt =>
      have hyname : WfName y := hys y (List.mem_cons_self _ _)
      have hyt : ∀ c ∈ yt, WfName c := fun c hc => hys c (List.mem_cons_of_mem _ hc)
      have hv : pathChars yt = [] ∨ (pathChars yt).head? = some '/' := by
        cases yt with
        | nil => exact Or.inl rfl
        | cons a t => exact Or.inr (pathChars_head (by simp))
      constructor
      · intro h
        have h' : x.data ++ (pathChars xt ++ ['/']) <+: y.data ++ pathChars yt := by
          have hshape : pathChars (x :: xt) ++ ['/']
              = '/' :: (x.data ++ (pathChars xt ++ ['/'])) := by
            show (('/' :: x.data) ++ pathChars xt) ++ ['/'] = _
            simp [List.append_assoc]
          have hshape2 : pathChars (y :: yt) = '/' :: (y.data ++ pathChars yt) := rfl
          rw [hshape, hshape2] at h
          exact (List.cons_prefix_cons.mp h).2
        obtain ⟨hdata, hpre⟩ := nameBlock hu hv hxname.2 hyname.2 h'
        have hxy : x = y := by
          have := congrArg String.mk hdata
          rwa [stringMk_data, stringMk_data] at this
        subst hxy
        obtain ⟨hp, hne⟩ := (ih yt hxt hyt).mp hpre
        refine ⟨List.cons_prefix_cons.mpr ⟨rfl, hp⟩, ?_⟩
        intro he
        exact hne (List.cons.inj he).2
      · rintro ⟨hpre, hne⟩
        obtain ⟨hxy, hpre'⟩ := List.cons_prefix_cons.mp hpre
        subst hxy
        have hnet : xt ≠ yt := fun he => hne (by rw [he])
        obtain ⟨w, hw⟩ := (ih yt hxt hyt).mpr ⟨hpre', hnet⟩
        refine ⟨w, ?_⟩
        show (pathChars (x :: xt) ++ ['/']) ++ w = pathChars (x :: yt)
        have hshape : pathChars (x :: xt) ++ ['/']
            = ('/' :: x.data) ++ (pathChars xt ++ ['/']) := by
          show (('/' :: x.data) ++ pathChars xt) ++ ['/'] = _
          simp [List.append_assoc]
        rw [hshape, List.append_assoc, hw]
        rfl

theorem member_ok_iff {outDir dest : List String}
    (hout : ∀ c ∈ outDir, WfName c) (hdest : ∀ c ∈ dest, WfName c) :
    member_ok outDir dest = true ↔ outDir <+: dest := by
  rw [member_ok, Bool.or_eq_true]
  have hpref := sep_strict_iff outDir dest hout hdest
  constructor
  · rintro (h | h)
    · exact (hpref.mp (by simpa using h)).1
    · have he : dest = outDir := by simpa using h
      rw [he]
  · intro h
    by_cases he : outDir = dest
    · right
      simp [he]
    · left
      simpa using hpref.mpr ⟨h, he⟩

theorem checkMembers_none_iff (outDir : List String) (ms : List ZipEntry) :
    checkMembers outDir ms = none
      ↔ ∀ m ∈ ms, member_ok outDir (destOf outDir m) = true := by
  induction ms with
  | nil => simp [checkMembers]
  | cons m rest ih =>
    by_cases h : member_ok outDir (destOf outDir m) = true
    · rw [checkMembers, if_pos h, ih]
      constructor
      · intro hall m' hm'
        rcases List.mem_cons.mp hm' with rfl | hm'
        · exact h
        · exact hall m' hm'
      · intro hall m' hm'
        exact hall m' (List.mem_cons_of_mem _ hm')
    · rw [checkMembers, if_neg h]
      constructor
      · intro hsome
        exact Option.noConfusion hsome
      · intro hall
        exact absurd (hall m (List.mem_cons_self _ _)) h

/-- C1: with a well-formed resolved output directory and slash-split member
names, `_safe_extractall` raises exactly when some member's resolved
destination escapes the output directory's subtree, in which case zero
files are written; when nothing escapes, every written path stays within
the output directory. -/
theorem C1_safe_extractall (outDir : List String) (ms : List ZipEntry)
    (hdir : WfDir outDir) (hms : ∀ m ∈ ms, WfEntry m) :
    ((_safe_extractall outDir ms).2.isSome = true ↔
      ∃ m ∈ ms, ¬ outDir <+: destOf outDir m) ∧
    ((∃ m ∈ ms, ¬ outDir <+: destOf outDir m) →
      (_safe_extractall outDir ms).1 = []) ∧
    ((_safe_extractall outDir ms).2 = none →
      ∀ p ∈ (_safe_extractall outDir ms).1, outDir <+: p) := by
  have hdest : ∀ m ∈ ms, ∀ c ∈ destOf outDir m, WfName c := by
    intro m hm
    rw [destOf]
    apply resolveComps_wf
    · by_cases habs : m.absolute
      · rw [if_pos habs]
        intro c hc
        exact absurd hc (List.not_mem_nil c)
      · rw [if_neg habs]
        exact hdir.2
    · exact hms m hm
  have hok_iff : ∀ m ∈ ms,
      (member_ok outDir (destOf outDir m) = true ↔ outDir <+: destOf outDir m) :=
    fun m hm => member_ok_iff hdir.2 (hdest m hm)
  cases hch : checkMembers outDir ms with
  | none =>
    have hnone : ∀ m ∈ ms, outDir <+: destOf outDir m := fun m hm =>
      (hok_iff m hm).mp ((checkMembers_none_iff outDir ms).mp hch m hm)
    refine ⟨?_, ?_, ?_⟩
    · constructor
      · intro h
        rw [_safe_extractall, hch] at h
        exact Bool.noConfusion h
      · rintro ⟨m, hm, hnot⟩
        exact absurd (hnone m hm) hnot
    · rintro ⟨m, hm, hnot⟩
      exact absurd (hnone m hm) hnot
    · intro _ p hp
      rw [_safe_extractall, hch] at hp
      obtain ⟨m, hm, rfl⟩ := List.mem_map.mp hp
      exact hnone m hm
  | some err =>
    have hbad : ∃ m ∈ ms, ¬ outDir <+: destOf outDir m := by
      have hnn : ¬ ∀ m ∈ ms, member_ok outDir (destOf outDir m) = true := by
        intro hall
        rw [(checkMembers_none_iff outDir ms).mpr hall] at hch
        exact Option.noConfusion hch
      push_neg at hnn
      obtain ⟨m, hm, hnot⟩ := hnn
      exact ⟨m, hm, fun hpre => hnot ((hok_iff m hm).mpr hpre)⟩
    refine ⟨?_, ?_, ?_⟩
    · constructor
      · intro _
        exact hbad
      · intro _
        rw [_safe_extractall, hch]
        rfl
    · intro _
      rw [_safe_extractall, hch]
    · intro h
      rw [_safe_extractall, hch] at h
      exact absurd h (by simp)

/-- Witness for C1: a single `../../evil.txt` member resolves outside the
output directory, the unpack aborts, and zero files are written. -/
theorem C1_witness :
    WfDir ["up", "mineru_files", "ab12"] ∧
    (∀ m ∈ [ZipEntry.mk false ["..", "..", "evil.txt"]], WfEntry m) ∧
    (∃ m ∈ [ZipEntry.mk false ["..", "..", "evil.txt"]],
      ¬ ["up", "mineru_files", "ab12"] <+:
          destOf ["up", "mineru_files", "ab12"] m) ∧
    (_safe_extractall ["up", "mineru_files", "ab12"]
        [ZipEntry.mk false ["..", "..", "evil.txt"]]).1 = [] :=
  ⟨by decide, by decide, by decide,
    (C1_safe_extractall ["up", "mineru_files", "ab12"]
        [ZipEntry.mk false ["..", "..", "evil.txt"]]
        (by decide) (by decide)).2.1 (by decide)⟩

end Banana
